import Mathlib

/-!
# Verification of the ndc-sdk-rs concurrency-coordination core

This file gives a shallow embedding of the two coordination components of the
repository — the request `Throttle` (crates/sdk/src/throttle.rs) and the lazily
initialized shared server state (crates/sdk/src/state.rs and
crates/sdk-core/src/state.rs) — and proves the specified properties about them.

The Rust code is asynchronous: callers of `Throttle::next` and
`ServerState::state` are tokio tasks.  We embed the code as a discrete-event
state machine.  Each lock-protected critical section of the source is one
atomic step of the machine; the scheduler is represented by an explicit list of
events (caller arrivals, driver resumptions, cancellations, clock advances)
which the interpreter folds over.  Time is modelled in milliseconds as `Nat`.
-/

namespace Throttle

/-- The state of a running operation, mirroring `RunningState<T>` in
throttle.rs.  A waiter is a registered `oneshot::Sender` together with a flag
recording whether the corresponding receiver is still alive (a cancelled
waiting caller drops its receiver, making `send` fail). -/
inductive BState (T : Type) where
  /-- The `RunningState::Running(Vec<oneshot::Sender<T>>)` queue of waiters. -/
  | pending (waiters : List (Nat × Bool))
  /-- The `RunningState::Finished(T)` transient cached result. -/
  | finished (v : T)
deriving DecidableEq

/-- The state of the throttle, mirroring `ThrottleState<T>` in throttle.rs.
A running batch is referenced by its index into the list of all batches ever
created (the `Arc<Mutex<RunningState>>` allocation). -/
inductive TState where
  /-- The `ThrottleState::NeverRun` initial state. -/
  | neverRun
  /-- The `ThrottleState::Idle` state with its `last_run` instant. -/
  | idle (lastRun : Nat)
  /-- The `ThrottleState::Running` state with its batch reference. -/
  | running (batch : Nat)
deriving DecidableEq

/-- The bookkeeping of the driver future returned by `decide` in the
`NeverRun`/`Idle` branch: which caller drives, which batch it owns, the
`start = Instant::now()` recorded under the state lock, and the earliest time
the pre-execution delay allows the operation to run (`sleep_until` of
`last_run + interval`, which is the current instant when the deadline has
already passed, and the current instant in the `NeverRun` case). -/
structure Driver where
  caller : Nat
  batch : Nat
  start : Nat
  wake : Nat
deriving DecidableEq

/-- The parameters fixed at `Throttle::new`: the interval, and the wrapped
operation.  The operation is modelled as a pure function of the number of
executions performed so far; the incrementing-counter operation of the tests
is `op = fun k => k`. -/
structure Params (T : Type) where
  interval : Nat
  op : Nat → T

/-- The whole system state: the clock, the `Arc<Mutex<ThrottleState>>` cell,
the heap of batch cells, the in-flight driver future (before it has run the
operation), the driver future between finishing its batch and re-locking the
state to mark it idle (`settling` holds the recorded start, the driving
caller, and the produced value), the log of instants at which an execution of
the operation began, the results delivered to callers, and a flag recording
whether the `unreachable!("throttle completed twice")` branch was ever hit. -/
structure Sys (T : Type) where
  now : Nat
  tstate : TState
  batches : List (BState T)
  driver : Option Driver
  settling : Option (Nat × Nat × T)
  execLog : List Nat
  results : List (Nat × T)
  double : Bool
deriving DecidableEq

/-- The state of a fresh `Throttle` at time 0. -/
def Sys.init (T : Type) : Sys T :=
  { now := 0
    tstate := .neverRun
    batches := []
    driver := none
    settling := none
    execLog := []
    results := []
    double := false }

/-- One caller executing the body of `decide` under the state lock.

* `NeverRun` / `Idle`: the caller becomes the driver.  It records
  `start = Instant::now()`, allocates a fresh batch in the
  `RunningState::Running(Vec::new())` state, and moves the throttle state to
  `Running`.  The pre-execution delay is zero for `NeverRun` and
  `sleep_until (last_run + interval)` for `Idle`.
* `Running`: the caller locks the batch.  If it is still `Running`, the caller
  registers a fresh oneshot channel in the waiter queue.  If it is already
  `Finished(value)`, the caller takes a clone of `value` immediately. -/
def arriveStep {T : Type} (P : Params T) (c : Nat) (s : Sys T) : Sys T :=
  match s.tstate with
  | .neverRun =>
      { s with
        batches := s.batches ++ [.pending []]
        tstate := .running s.batches.length
        driver := some ⟨c, s.batches.length, s.now, s.now⟩ }
  | .idle lastRun =>
      { s with
        batches := s.batches ++ [.pending []]
        tstate := .running s.batches.length
        driver := some ⟨c, s.batches.length, s.now, max s.now (lastRun + P.interval)⟩ }
  | .running b =>
      match s.batches[b]? with
      | some (.pending ws) =>
          { s with batches := s.batches.set b (.pending (ws ++ [(c, true)])) }
      | some (.finished v) =>
          { s with results := s.results ++ [(c, v)] }
      | none => s

/-- The driver future resuming after its delay: it runs the operation, then
locks the batch, sends a clone of the value to every waiter (a send to a
cancelled waiter fails and is discarded by `let _ =`), and replaces the batch
by `Finished(value)`.  Finding the batch already `Finished` is the
`unreachable!("throttle completed twice")` branch, recorded in `double`.
The event is a no-op when there is no driver or the delay has not elapsed. -/
def completeStep {T : Type} (P : Params T) (s : Sys T) : Sys T :=
  match s.driver with
  | none => s
  | some d =>
      if s.now < d.wake then s
      else
        match s.batches[d.batch]? with
        | some (.pending ws) =>
            { s with
              execLog := s.execLog ++ [s.now]
              results := s.results ++
                ws.filterMap fun w =>
                  if w.2 then some (w.1, P.op s.execLog.length) else none
              batches := s.batches.set d.batch (.finished (P.op s.execLog.length))
              driver := none
              settling := some (d.start, d.caller, P.op s.execLog.length) }
        | some (.finished _) =>
            { s with double := true, driver := none, execLog := s.execLog ++ [s.now] }
        | none => s

/-- The driver future re-acquiring the state lock after finishing its batch:
it sets the throttle state to `Idle { last_run = start }` and then returns the
value to its own caller.  A no-op when no driver is in that phase. -/
def settleStep {T : Type} (s : Sys T) : Sys T :=
  match s.settling with
  | none => s
  | some (st, c, v) =>
      { s with
        tstate := .idle st
        settling := none
        results := s.results ++ [(c, v)] }

/-- Dropping the receiver of a registered waiter: the sender stays queued but
a later `send` to it fails. -/
def markDead {T : Type} (c : Nat) : BState T → BState T
  | .pending ws => .pending (ws.map fun w => if w.1 = c then (w.1, false) else w)
  | b => b

/-- A waiting caller's task being cancelled while suspended on its channel. -/
def cancelWaiterStep {T : Type} (c : Nat) (s : Sys T) : Sys T :=
  { s with batches := s.batches.map (markDead c) }

/-- The driver caller's task being dropped before its future resumed: the
delay, the operation and the notification code are never run.  The batch cell
is still referenced from `ThrottleState::Running`, so the queued senders are
not dropped — the waiters stay suspended. -/
def cancelDriverStep {T : Type} (s : Sys T) : Sys T :=
  { s with driver := none }

/-- Advancing the clock (time is monotone). -/
def tickStep {T : Type} (t : Nat) (s : Sys T) : Sys T :=
  { s with now := max s.now t }

/-- Scheduler events. -/
inductive Ev where
  /-- Caller `c` calls `next()`; its `decide` runs now. -/
  | arrive (c : Nat)
  /-- The pending driver future resumes, runs the operation and finishes its batch. -/
  | complete
  /-- The driver future marks the throttle state idle and returns its value. -/
  | settle
  /-- A waiting caller is cancelled. -/
  | cancelWaiter (c : Nat)
  /-- The driver caller's task is dropped before resuming. -/
  | cancelDriver
  /-- The clock advances to time `t`. -/
  | tick (t : Nat)
deriving DecidableEq

/-- One scheduler event. -/
def step {T : Type} (P : Params T) (s : Sys T) : Ev → Sys T
  | .arrive c => arriveStep P c s
  | .complete => completeStep P s
  | .settle => settleStep s
  | .cancelWaiter c => cancelWaiterStep c s
  | .cancelDriver => cancelDriverStep s
  | .tick t => tickStep t s

/-- Run a schedule from a fresh throttle. -/
def run {T : Type} (P : Params T) (evs : List Ev) : Sys T :=
  evs.foldl (step P) (Sys.init T)

/-- The result delivered to caller `c`, if any. -/
def resultOf {T : Type} (s : Sys T) (c : Nat) : Option T :=
  (s.results.find? fun p => p.1 = c).map fun p => p.2

/-- The incrementing-counter operation with a one-second interval, as in the
tests of throttle.rs. -/
def counterParams : Params Nat :=
  { interval := 1000, op := fun k => k }

/-- A schedule exercising a delayed driver: one immediate execution at t=0,
then a caller at t=0.5s whose execution is delayed until t=1s. -/
def delayedDriverSched : List Ev :=
  [.arrive 0, .complete, .settle, .tick 500, .arrive 1, .tick 1000, .complete, .settle]

/-- The schedule `delayedDriverSched` extended with a third caller at t=1.4s whose
execution is delayed only until t=1.5s. -/
def delayedDriverSched2 : List Ev :=
  delayedDriverSched ++ [.tick 1400, .arrive 2, .tick 1500, .complete, .settle]

/-- The spec §8 interval-gating scenario: calls at t=0, 0, 0.5s and four calls
at t=1.001s, the last four admitted before the delayed second execution
completes. -/
def gatingSched : List Ev :=
  [.arrive 0, .arrive 1, .complete, .settle, .tick 500, .arrive 2,
   .tick 1001, .arrive 3, .arrive 4, .arrive 5, .arrive 6, .complete, .settle]

/-- C7: a caller that finds the throttle state `Running` but the batch already
`Finished(value)` returns a clone of `value` immediately: the only change to
the system is the delivery of `value` to that caller — no waiter is
registered, no batch is created, no execution is triggered or waited for. -/
theorem arrive_on_finished_batch {T : Type} (P : Params T) (c : Nat) (s : Sys T)
    (b : Nat) (v : T) (h1 : s.tstate = .running b)
    (h2 : s.batches[b]? = some (.finished v)) :
    arriveStep P c s = { s with results := s.results ++ [(c, v)] } := by
  simp [arriveStep, h1, h2]

/-- Witness for C7 at a reachable state: after `[arrive 0, complete]` the
state is `Running` with the batch `Finished 0`, and a second caller receives
`0` immediately. -/
theorem arrive_on_finished_batch_witness :
    arriveStep counterParams 1 (run counterParams [.arrive 0, .complete])
      = { run counterParams [.arrive 0, .complete] with
          results := (run counterParams [.arrive 0, .complete]).results ++ [(1, 0)] } :=
  arrive_on_finished_batch counterParams 1 (run counterParams [.arrive 0, .complete]) 0 0
    (by decide) (by decide)

/-- C9: when the driver completes a batch, a send to a cancelled waiter fails
silently: the results delivered are exactly one clone of the value per waiter
whose receiver is still alive, every live waiter in the batch receives the
value, and the driver hits no fatal branch (`double` is unchanged) and
proceeds to settle normally. -/
theorem dead_waiter_is_skipped_silently {T : Type} (P : Params T) (s : Sys T)
    (d : Driver) (ws : List (Nat × Bool)) (h1 : s.driver = some d)
    (h2 : s.batches[d.batch]? = some (.pending ws)) (h3 : d.wake ≤ s.now) :
    (completeStep P s).results
        = s.results ++
            (ws.filterMap fun w =>
              if w.2 then some (w.1, P.op s.execLog.length) else none)
      ∧ (completeStep P s).double = s.double
      ∧ (completeStep P s).settling = some (d.start, d.caller, P.op s.execLog.length)
      ∧ ∀ c : Nat, (c, true) ∈ ws →
          (c, P.op s.execLog.length) ∈ (completeStep P s).results := by
  have hlt : ¬ s.now < d.wake := Nat.not_lt.mpr h3
  refine ⟨?_, ?_, ?_, ?_⟩ <;>
    simp only [completeStep, h1, h2, hlt, if_false]
  intro c hc
  refine List.mem_append.mpr (Or.inr ?_)
  exact List.mem_filterMap.mpr ⟨(c, true), hc, by simp⟩

/-- Witness for C9: three callers at t=0; caller 0 drives, callers 1 and 2
join, caller 1 is cancelled.  On completion only caller 2 is notified, caller
2 receives the value, and no fatal branch is hit. -/
theorem dead_waiter_is_skipped_silently_witness :
    (completeStep counterParams
          (run counterParams [.arrive 0, .arrive 1, .arrive 2, .cancelWaiter 1])).results
        = [(2, 0)]
      ∧ (completeStep counterParams
            (run counterParams [.arrive 0, .arrive 1, .arrive 2, .cancelWaiter 1])).double
          = false
      ∧ (2, 0) ∈ (completeStep counterParams
            (run counterParams [.arrive 0, .arrive 1, .arrive 2, .cancelWaiter 1])).results := by
  have h := dead_waiter_is_skipped_silently counterParams
    (run counterParams [.arrive 0, .arrive 1, .arrive 2, .cancelWaiter 1])
    ⟨0, 0, 0, 0⟩ [(1, false), (2, true)] (by decide) (by decide) (by decide)
  exact ⟨h.1, h.2.1, h.2.2.2 2 (by decide)⟩

/-- C5 counterexample: the code keys the interval off the instant the driver
was chosen, not the instant execution began.  In `delayedDriverSched` the
second execution begins at t=1000 but the state afterwards is
`Idle{last_run=500}` (500 is when caller 1 ran `decide`); and in
`delayedDriverSched2` the third execution begins at t=1500, only 500ms after
the second began — less than the 1000ms interval the claim would enforce from
start of execution. -/
theorem last_run_counterexample :
    ((run counterParams delayedDriverSched).tstate = .idle 500
      ∧ (run counterParams delayedDriverSched).execLog = [0, 1000]
      ∧ (500 : Nat) ≠ 1000)
    ∧ ((run counterParams delayedDriverSched2).execLog = [0, 1000, 1500]
      ∧ 1500 - 1000 < counterParams.interval) := by
  decide

/-- C5 amended: when a driver completes, the state becomes
`Idle{last_run = start}` where `start` is the instant recorded when the driver
was chosen in `decide` — the beginning of the pre-execution delay — and the
next execution's delay is measured from that instant.  In detail: (a) a caller
finding `NeverRun` becomes driver with `start = wake = now`; (b) a caller
finding `Idle{t}` becomes driver with `start = now` and
`wake = max now (t + interval)`, so `start ≤ wake`; (c) completion records the
execution instant `now ≥ wake` in the log and carries `start` into the
settling record; (d) settling writes `Idle{last_run = start}`. -/
theorem last_run_is_decide_instant {T : Type} (P : Params T) :
    (∀ (c : Nat) (s : Sys T), s.tstate = .neverRun →
        (arriveStep P c s).driver = some ⟨c, s.batches.length, s.now, s.now⟩)
    ∧ (∀ (c : Nat) (s : Sys T) (t : Nat), s.tstate = .idle t →
        (arriveStep P c s).driver
          = some ⟨c, s.batches.length, s.now, max s.now (t + P.interval)⟩
        ∧ s.now ≤ max s.now (t + P.interval))
    ∧ (∀ (s : Sys T) (d : Driver) (ws : List (Nat × Bool)), s.driver = some d →
        d.wake ≤ s.now → s.batches[d.batch]? = some (.pending ws) →
        (completeStep P s).execLog = s.execLog ++ [s.now]
        ∧ (completeStep P s).settling
            = some (d.start, d.caller, P.op s.execLog.length))
    ∧ (∀ (s : Sys T) (st c : Nat) (v : T), s.settling = some (st, c, v) →
        (settleStep s).tstate = .idle st) := by
  refine ⟨?_, ?_, ?_, ?_⟩
  · intro c s h; simp [arriveStep, h]
  · intro c s t h; exact ⟨by simp [arriveStep, h], Nat.le_max_left _ _⟩
  · intro s d ws h1 h2 h3
    have hlt : ¬ s.now < d.wake := Nat.not_lt.mpr h2
    constructor <;> simp [completeStep, h1, h3, hlt]
  · intro s st c v h; simp [settleStep, h]

/-- Witness for the C5 amended theorem, at the states reached along
`delayedDriverSched`: the caller at t=500 becomes driver with `start = 500`
and `wake = 1000`; its completion at t=1000 logs the execution and carries
`start = 500`; settling then yields `Idle{last_run = 500}`. -/
theorem last_run_is_decide_instant_witness :
    (arriveStep counterParams 1
        (run counterParams [.arrive 0, .complete, .settle, .tick 500])).driver
      = some ⟨1, 1, 500, 1000⟩
    ∧ (completeStep counterParams
        (run counterParams
          [.arrive 0, .complete, .settle, .tick 500, .arrive 1, .tick 1000])).settling
      = some (500, 1, 1)
    ∧ (settleStep
        (run counterParams
          [.arrive 0, .complete, .settle, .tick 500, .arrive 1, .tick 1000,
           .complete])).tstate
      = .idle 500 := by
  refine ⟨?_, ?_, ?_⟩
  · have h := (last_run_is_decide_instant counterParams).2.1 1
      (run counterParams [.arrive 0, .complete, .settle, .tick 500]) 0 (by decide)
    exact h.1.trans (by decide)
  · have h := (last_run_is_decide_instant counterParams).2.2.1
      (run counterParams
        [.arrive 0, .complete, .settle, .tick 500, .arrive 1, .tick 1000])
      ⟨1, 1, 500, 1000⟩ [] (by decide) (by decide) (by decide)
    exact h.2.trans (by decide)
  · exact (last_run_is_decide_instant counterParams).2.2.2
      (run counterParams
        [.arrive 0, .complete, .settle, .tick 500, .arrive 1, .tick 1000, .complete])
      500 1 1 (by decide)

/-- Characterization of a driver completing over a still-pending batch. -/
theorem completeStep_pending {T : Type} (P : Params T) (s : Sys T) (d : Driver)
    (ws : List (Nat × Bool)) (h1 : s.driver = some d)
    (h2 : s.batches[d.batch]? = some (.pending ws)) (h3 : d.wake ≤ s.now) :
    completeStep P s
      = { s with
          execLog := s.execLog ++ [s.now]
          results := s.results ++
            (ws.filterMap fun w =>
              if w.2 then some (w.1, P.op s.execLog.length) else none)
          batches := s.batches.set d.batch (.finished (P.op s.execLog.length))
          driver := none
          settling := some (d.start, d.caller, P.op s.execLog.length) } := by
  have hlt : ¬ s.now < d.wake := Nat.not_lt.mpr h3
  simp [completeStep, h1, h2, hlt]

/-- Notifying a queue of all-live waiters delivers one clone of the value to
each of them, in order. -/
theorem filterMap_live_map {T : Type} (v : T) (cs : List Nat) :
    ((cs.map fun c => (c, true)).filterMap fun w =>
        if w.2 then some (w.1, v) else none)
      = cs.map fun c => (c, v) := by
  induction cs with
  | nil => rfl
  | cons c cs ih => simp [ih]

/-- While the throttle is `Running` over a pending batch, a sequence of
arriving callers only appends waiters to that batch, in order; every other
component of the system is unchanged. -/
theorem foldl_arrive_join {T : Type} (P : Params T) (cs : List Nat) (s : Sys T)
    (b : Nat) (ws : List (Nat × Bool)) (h1 : s.tstate = .running b)
    (h2 : s.batches[b]? = some (.pending ws)) :
    ((cs.map Ev.arrive).foldl (step P) s).tstate = .running b
    ∧ ((cs.map Ev.arrive).foldl (step P) s).batches[b]?
        = some (.pending (ws ++ cs.map fun c => (c, true)))
    ∧ ((cs.map Ev.arrive).foldl (step P) s).driver = s.driver
    ∧ ((cs.map Ev.arrive).foldl (step P) s).results = s.results
    ∧ ((cs.map Ev.arrive).foldl (step P) s).execLog = s.execLog
    ∧ ((cs.map Ev.arrive).foldl (step P) s).settling = s.settling
    ∧ ((cs.map Ev.arrive).foldl (step P) s).now = s.now
    ∧ ((cs.map Ev.arrive).foldl (step P) s).double = s.double := by
  induction cs generalizing s ws with
  | nil => exact ⟨h1, by simpa using h2, rfl, rfl, rfl, rfl, rfl, rfl⟩
  | cons c cs ih =>
      have hb : b < s.batches.length := (List.getElem?_eq_some.mp h2).1
      have hstep : step P s (Ev.arrive c)
          = { s with batches := s.batches.set b (.pending (ws ++ [(c, true)])) } := by
        simp [step, arriveStep, h1, h2]
      have h2' : ({ s with batches := s.batches.set b (.pending (ws ++ [(c, true)])) }
            : Sys T).batches[b]? = some (.pending (ws ++ [(c, true)])) := by
        simpa using List.getElem?_set_self (l := s.batches) (a := .pending (ws ++ [(c, true)])) hb
      have := ih ({ s with batches := s.batches.set b (.pending (ws ++ [(c, true)])) })
        (ws ++ [(c, true)]) h1 h2'
      simpa [hstep, List.append_assoc] using this

/-- C1: for N ≥ 1 calls issued at time 0 on a fresh throttle — the driver
`c0` followed by the joiners `cs`, all arriving before the driver's future
resumes — the operation executes exactly once (a single entry in the
execution log), and every one of the N callers receives the output of that
single execution: the joiners by notification, in order, then the driver. -/
theorem coalesced_callers_single_execution {T : Type} (P : Params T)
    (c0 : Nat) (cs : List Nat) :
    (run P ((c0 :: cs).map Ev.arrive ++ [Ev.complete, Ev.settle])).execLog = [0]
    ∧ (run P ((c0 :: cs).map Ev.arrive ++ [Ev.complete, Ev.settle])).results
        = (cs.map fun c => (c, P.op 0)) ++ [(c0, P.op 0)]
    ∧ ∀ c ∈ c0 :: cs,
        (c, P.op 0) ∈ (run P ((c0 :: cs).map Ev.arrive ++ [Ev.complete, Ev.settle])).results := by
  have hfold : run P ((c0 :: cs).map Ev.arrive ++ [Ev.complete, Ev.settle])
      = settleStep (completeStep P
          ((cs.map Ev.arrive).foldl (step P) (arriveStep P c0 (Sys.init T)))) := by
    simp [run, List.foldl_append, step]
  rw [hfold]
  set t := (cs.map Ev.arrive).foldl (step P) (arriveStep P c0 (Sys.init T)) with ht
  obtain ⟨h1, h2, h3, h4, h5, h6, h7, h8⟩ :=
    foldl_arrive_join P cs (arriveStep P c0 (Sys.init T)) 0 [] rfl rfl
  rw [← ht] at h1 h2 h3 h4 h5 h7
  have hdrv : t.driver = some ⟨c0, 0, 0, 0⟩ := h3.trans rfl
  have hws : t.batches[0]? = some (.pending (cs.map fun c => (c, true))) := by
    simpa using h2
  have hu := completeStep_pending P t ⟨c0, 0, 0, 0⟩ (cs.map fun c => (c, true))
    hdrv hws (Nat.zero_le _)
  have h4' : t.results = [] := h4.trans rfl
  have h5' : t.execLog = [] := h5.trans rfl
  have h7' : t.now = 0 := h7.trans rfl
  have hres : (settleStep (completeStep P t)).results
      = (cs.map fun c => (c, P.op 0)) ++ [(c0, P.op 0)] := by
    rw [hu]
    simp only [settleStep, h4', h5', h7', List.nil_append, List.length_nil]
    rw [filterMap_live_map]
  have hlog : (settleStep (completeStep P t)).execLog = [0] := by
    rw [hu]
    simp [settleStep, h5', h7']
  refine ⟨hlog, hres, ?_⟩
  intro c hc
  rw [hres]
  rcases List.mem_cons.mp hc with hc0 | hcs
  · subst hc0
    exact List.mem_append_right _ (by simp)
  · exact List.mem_append_left _ (List.mem_map.mpr ⟨c, hcs, rfl⟩)

/-- The single-flight invariant behind C8: whenever a driver future has not
yet completed, the batch it owns is still pending, and the
`unreachable!("throttle completed twice")` branch has never been hit. -/
def GoodDriver {T : Type} (s : Sys T) : Prop :=
  ∀ d : Driver, s.driver = some d →
    ∃ ws, s.batches[d.batch]? = some (BState.pending ws)

/-- Every scheduler event preserves the single-flight invariant. -/
theorem step_preserves_good {T : Type} (P : Params T) (s : Sys T) (e : Ev)
    (hg : GoodDriver s) (hd : s.double = false) :
    GoodDriver (step P s e) ∧ (step P s e).double = false := by
  cases e with
  | arrive c =>
      cases htst : s.tstate with
      | neverRun =>
          refine ⟨?_, by simpa [step, arriveStep, htst] using hd⟩
          intro d hdd
          simp only [step, arriveStep, htst, Option.some.injEq] at hdd
          refine ⟨[], ?_⟩
          simp only [step, arriveStep, htst, ← hdd]
          exact List.getElem?_concat_length s.batches _
      | idle lastRun =>
          refine ⟨?_, by simpa [step, arriveStep, htst] using hd⟩
          intro d hdd
          simp only [step, arriveStep, htst, Option.some.injEq] at hdd
          refine ⟨[], ?_⟩
          simp only [step, arriveStep, htst, ← hdd]
          exact List.getElem?_concat_length s.batches _
      | running b =>
          cases hbb : s.batches[b]? with
          | none =>
              constructor
              · intro d hdd
                have hdd' : s.driver = some d := by
                  simpa [step, arriveStep, htst, hbb] using hdd
                obtain ⟨ws0, hws0⟩ := hg d hdd'
                exact ⟨ws0, by simpa [step, arriveStep, htst, hbb] using hws0⟩
              · simpa [step, arriveStep, htst, hbb] using hd
          | some bs =>
              cases bs with
              | pending ws =>
                  constructor
                  · intro d hdd
                    have hdd' : s.driver = some d := by
                      simpa [step, arriveStep, htst, hbb] using hdd
                    obtain ⟨ws0, hws0⟩ := hg d hdd'
                    have hblen : b < s.batches.length :=
                      (List.getElem?_eq_some.mp hbb).1
                    by_cases hbd : b = d.batch
                    · subst hbd
                      refine ⟨ws ++ [(c, true)], ?_⟩
                      simp only [step, arriveStep, htst, hbb]
                      exact List.getElem?_set_self hblen
                    · refine ⟨ws0, ?_⟩
                      simp only [step, arriveStep, htst, hbb]
                      rw [List.getElem?_set_ne hbd]
                      exact hws0
                  · simpa [step, arriveStep, htst, hbb] using hd
              | finished v =>
                  constructor
                  · intro d hdd
                    have hdd' : s.driver = some d := by
                      simpa [step, arriveStep, htst, hbb] using hdd
                    obtain ⟨ws0, hws0⟩ := hg d hdd'
                    exact ⟨ws0, by simpa [step, arriveStep, htst, hbb] using hws0⟩
                  · simpa [step, arriveStep, htst, hbb] using hd
  | complete =>
      cases hdr : s.driver with
      | none => simpa [step, completeStep, hdr] using ⟨hg, hd⟩
      | some d =>
          by_cases hnw : s.now < d.wake
          · constructor
            · intro d' hdd'
              have : s.driver = some d' := by
                simpa [step, completeStep, hdr, hnw] using hdd'
              obtain ⟨ws0, hws0⟩ := hg d' this
              exact ⟨ws0, by simpa [step, completeStep, hdr, hnw] using hws0⟩
            · simpa [step, completeStep, hdr, hnw] using hd
          · obtain ⟨ws, hws⟩ := hg d hdr
            constructor
            · intro d' hdd'
              simp [step, completeStep, hdr, hnw, hws] at hdd'
            · simpa [step, completeStep, hdr, hnw, hws] using hd
  | settle =>
      cases hst : s.settling with
      | none => simpa [step, settleStep, hst] using ⟨hg, hd⟩
      | some r =>
          obtain ⟨st, c, v⟩ := r
          constructor
          · intro d hdd
            have : s.driver = some d := by
              simpa [step, settleStep, hst] using hdd
            obtain ⟨ws0, hws0⟩ := hg d this
            exact ⟨ws0, by simpa [step, settleStep, hst] using hws0⟩
          · simpa [step, settleStep, hst] using hd
  | cancelWaiter c =>
      constructor
      · intro d hdd
        have : s.driver = some d := by
          simpa [step, cancelWaiterStep] using hdd
        obtain ⟨ws0, hws0⟩ := hg d this
        refine ⟨ws0.map fun w => if w.1 = c then (w.1, false) else w, ?_⟩
        simp only [step, cancelWaiterStep, List.getElem?_map, hws0]
        simp [markDead]
      · simpa [step, cancelWaiterStep] using hd
  | cancelDriver =>
      constructor
      · intro d hdd
        simp [step, cancelDriverStep] at hdd
      · simpa [step, cancelDriverStep] using hd
  | tick t =>
      constructor
      · intro d hdd
        have : s.driver = some d := by simpa [step, tickStep] using hdd
        obtain ⟨ws0, hws0⟩ := hg d this
        exact ⟨ws0, by simpa [step, tickStep] using hws0⟩
      · simpa [step, tickStep] using hd

/-- C8: over every schedule, the driver's completion path never observes an
already-finished batch — the branch of `decide` that treats a second
`Pending → Done` transition as a defect
(`unreachable!("throttle completed twice")`) is never executed. -/
theorem completion_never_observes_finished {T : Type} (P : Params T)
    (evs : List Ev) : (run P evs).double = false := by
  suffices h : ∀ (s : Sys T), GoodDriver s → s.double = false →
      GoodDriver (evs.foldl (step P) s) ∧ (evs.foldl (step P) s).double = false by
    exact (h (Sys.init T) (fun d hdd => by simp [Sys.init] at hdd) rfl).2
  induction evs with
  | nil => intro s hg hd; exact ⟨hg, hd⟩
  | cons e evs ih =>
      intro s hg hd
      obtain ⟨hg', hd'⟩ := step_preserves_good P s e hg hd
      exact ih (step P s e) hg' hd'

/-- The wedged configuration behind C4: the throttle state points at a pending
batch containing caller `c` as a registered waiter, but no driver future and
no settling future exists anymore, and `c` has received no result.  No
scheduler event can ever deliver a result to `c` from such a configuration. -/
def Wedged {T : Type} (s : Sys T) (b c : Nat) : Prop :=
  s.tstate = .running b ∧ s.driver = none ∧ s.settling = none
  ∧ (∃ ws, s.batches[b]? = some (BState.pending ws))
  ∧ ∀ p ∈ s.results, p.1 ≠ c

/-- Every scheduler event preserves the wedged configuration. -/
theorem step_preserves_wedged {T : Type} (P : Params T) (s : Sys T) (e : Ev)
    (b c : Nat) (hw : Wedged s b c) : Wedged (step P s e) b c := by
  obtain ⟨h1, h2, h3, ⟨ws, h4⟩, h5⟩ := hw
  cases e with
  | arrive x =>
      have hblen : b < s.batches.length := (List.getElem?_eq_some.mp h4).1
      have hstep : step P s (Ev.arrive x)
          = { s with batches := s.batches.set b (.pending (ws ++ [(x, true)])) } := by
        simp [step, arriveStep, h1, h4]
      rw [hstep]
      refine ⟨h1, h2, h3, ⟨ws ++ [(x, true)], ?_⟩, h5⟩
      simpa using List.getElem?_set_self (l := s.batches)
        (a := BState.pending (ws ++ [(x, true)])) hblen
  | complete => simpa [step, completeStep, h2] using ⟨h1, h2, h3, ⟨ws, h4⟩, h5⟩
  | settle => simpa [step, settleStep, h3] using ⟨h1, h2, h3, ⟨ws, h4⟩, h5⟩
  | cancelWaiter x =>
      refine ⟨h1, h2, h3, ⟨ws.map fun w => if w.1 = x then (w.1, false) else w, ?_⟩, h5⟩
      simp only [step, cancelWaiterStep, List.getElem?_map, h4]
      simp [markDead]
  | cancelDriver => exact ⟨h1, rfl, h3, ⟨ws, h4⟩, h5⟩
  | tick t => exact ⟨h1, h2, h3, ⟨ws, h4⟩, h5⟩

/-- C4 is violated by the code: if the driver caller's task is dropped before
its future resumes (schedule `[arrive 0, arrive 1, cancelDriver]`), the
caller that joined the batch as a waiter — caller 1, registered in the
pending batch — never receives any `Output`, however the schedule continues:
it stays suspended on its channel forever instead of getting a result or a
coordinator-level failure. -/
theorem joined_waiter_hangs_after_driver_drop :
    ((run counterParams [.arrive 0, .arrive 1, .cancelDriver]).batches
        = [.pending [(1, true)]])
    ∧ ∀ evs : List Ev,
        resultOf (run counterParams ([.arrive 0, .arrive 1, .cancelDriver] ++ evs)) 1
          = none := by
  refine ⟨by decide, ?_⟩
  intro evs
  have hpre : run counterParams ([.arrive 0, .arrive 1, .cancelDriver] ++ evs)
      = evs.foldl (step counterParams)
          (run counterParams [.arrive 0, .arrive 1, .cancelDriver]) := by
    simp [run, List.foldl_append]
  have hw : ∀ (evs' : List Ev) (s : Sys Nat), Wedged s 0 1 →
      Wedged (evs'.foldl (step counterParams) s) 0 1 := by
    intro evs'
    induction evs' with
    | nil => intro s hs; exact hs
    | cons e evs' ih =>
        intro s hs
        exact ih _ (step_preserves_wedged counterParams s e 0 1 hs)
  have hw0 : Wedged (run counterParams [.arrive 0, .arrive 1, .cancelDriver]) 0 1 :=
    ⟨rfl, rfl, rfl, ⟨[(1, true)], rfl⟩, by decide⟩
  have hfin := hw evs _ hw0
  rw [hpre]
  have := hfin.2.2.2.2
  simp only [resultOf, Option.map_eq_none']
  rw [List.find?_eq_none]
  intro x hx
  simpa using this x hx

/-- C6 counterexample: in the spec §8 scenario — calls at t=0, 0, 0.5s and
four calls at t=1.001s, the four joining before the delayed second execution
completes — all seven calls return values, so the results do not form the
claimed six-element list [0,0,1,1,1,1]. -/
theorem gating_scenario_counterexample :
    [0, 1, 2, 3, 4, 5, 6].map (resultOf (run counterParams gatingSched))
      ≠ [some 0, some 0, some 1, some 1, some 1, some 1] := by
  decide

/-- C6 amended: in that scenario the seven calls return [0,0,1,1,1,1,1]
respectively — the first two coalesce into the first execution (result 0),
the call at t=0.5s drives the second execution (result 1), and the four calls
at t=1.001s coalesce into that second execution (result 1) — and exactly two
executions occur, at t=0 and t=1.001s. -/
theorem gating_scenario_results :
    [0, 1, 2, 3, 4, 5, 6].map (resultOf (run counterParams gatingSched))
      = [some 0, some 0, some 1, some 1, some 1, some 1, some 1]
    ∧ (run counterParams gatingSched).execLog = [0, 1001] := by
  decide

end Throttle

namespace Lazy

/-- The content of the coordination cell of `ServerState`
(crates/sdk/src/state.rs and crates/sdk-core/src/state.rs): the optionally
initialized state, paired with a count of factory invocations so far.  The
factory (`try_init_state`) is modelled as a function of the invocation
number, so one factory value can describe fail-then-succeed behaviors. -/
structure CellSys (S : Type) where
  cell : Option S
  count : Nat
deriving DecidableEq

/-- A fresh, empty cell. -/
def CellSys.fresh (S : Type) : CellSys S :=
  { cell := none, count := 0 }

/-- Modelled from the spec: the sequential contract of
`tokio::sync::OnceCell::get_or_try_init`, the primitive `ServerState::state`
delegates to; the cell implementation is a dependency of the repository, not
part of its sources.  Per spec §4.2 and the doc comment of
`ServerState::state`: if the cell is initialized, return the cached value
without invoking the factory; otherwise invoke the factory — on success cache
the value permanently and return it, on failure cache nothing, leave the cell
empty and propagate the factory's error verbatim, so that the next call
retries. -/
def getOrTryInit {S E : Type} (factory : Nat → Except E S) (s : CellSys S) :
    CellSys S × Except E S :=
  match s.cell with
  | some v => (s, .ok v)
  | none =>
      match factory s.count with
      | .ok v => ({ cell := some v, count := s.count + 1 }, .ok v)
      | .error e => ({ cell := none, count := s.count + 1 }, .error e)

/-- A sequence of `n` calls to `ServerState::state` on the same cell: the
final cell and the list of per-call outcomes. -/
def callsN {S E : Type} (factory : Nat → Except E S) :
    Nat → CellSys S → CellSys S × List (Except E S)
  | 0, s => (s, [])
  | n + 1, s =>
      ((callsN factory n (getOrTryInit factory s).1).1,
        (getOrTryInit factory s).2 :: (callsN factory n (getOrTryInit factory s).1).2)

/-- A call on an initialized cell returns the cached value and changes
nothing: the factory is not invoked. -/
theorem getOrTryInit_cached {S E : Type} (factory : Nat → Except E S)
    (s : CellSys S) (v : S) (h : s.cell = some v) :
    getOrTryInit factory s = (s, .ok v) := by
  simp [getOrTryInit, h]

/-- A successful call leaves the returned value in the cell. -/
theorem getOrTryInit_ok_cell {S E : Type} (factory : Nat → Except E S)
    (s : CellSys S) (v : S) (h : (getOrTryInit factory s).2 = .ok v) :
    (getOrTryInit factory s).1.cell = some v := by
  cases hcell : s.cell with
  | some w =>
      have hw : w = v := by simpa [getOrTryInit, hcell] using h
      simp [getOrTryInit, hcell, hw]
  | none =>
      cases hfac : factory s.count with
      | ok w =>
          have hw : w = v := by simpa [getOrTryInit, hcell, hfac] using h
          simp [getOrTryInit, hcell, hfac, hw]
      | error e => simp [getOrTryInit, hcell, hfac] at h

/-- Modelled from the spec: the tri-state coordination of concurrent
`get_or_init` callers (§4.2 step 2, §9: `Empty | Initializing(waiters) |
Initialized(value)`), which in the code lives inside tokio's `OnceCell`.  A
caller finding the cell empty becomes the leader of a new attempt and invokes
the factory; callers arriving during the attempt join it as waiters and await
its outcome; callers finding the cell ready receive the cached value. -/
inductive LState (S : Type) where
  | empty
  | initializing (leader : Nat) (attempt : Nat) (waiters : List Nat)
  | ready (v : S)
deriving DecidableEq

/-- The concurrent-coordination system: the tri-state cell, the number of
factory invocations started, and the outcomes delivered to callers. -/
structure LSys (S E : Type) where
  lstate : LState S
  count : Nat
  outcomes : List (Nat × Except E S)

/-- A fresh concurrent cell. -/
def LSys.fresh (S E : Type) : LSys S E :=
  { lstate := .empty, count := 0, outcomes := [] }

/-- Events of the concurrent cell: a caller arriving, and the in-flight
attempt finishing with the factory's outcome. -/
inductive LEv where
  | arrive (c : Nat)
  | finish
deriving DecidableEq

/-- Modelled from the spec: one scheduler event of the concurrent lazy cell.
On `finish`, a successful attempt caches the value and delivers it to the
leader and every waiter of the attempt; a failed attempt caches nothing,
leaves the cell empty, and delivers that attempt's error to the leader and
every waiter of the attempt. -/
def lstep {S E : Type} (factory : Nat → Except E S) (s : LSys S E) :
    LEv → LSys S E
  | .arrive c =>
      match s.lstate with
      | .empty =>
          { s with lstate := .initializing c s.count [], count := s.count + 1 }
      | .initializing l k ws =>
          { s with lstate := .initializing l k (ws ++ [c]) }
      | .ready v =>
          { s with outcomes := s.outcomes ++ [(c, .ok v)] }
  | .finish =>
      match s.lstate with
      | .initializing l k ws =>
          match factory k with
          | .ok v =>
              { s with
                lstate := .ready v
                outcomes := s.outcomes ++ (l :: ws).map fun c => (c, .ok v) }
          | .error e =>
              { s with
                lstate := .empty
                outcomes := s.outcomes ++ (l :: ws).map fun c => (c, .error e) }
      | .empty => s
      | .ready _ => s

/-- C2: once a call has succeeded, the factory is never invoked again and
every subsequent caller observes the same cached value: (a) a single call on
an initialized cell returns the cached value and leaves the cell — including
the invocation count — untouched; (b) any sequence of `n` further calls
leaves the cell untouched and returns the cached value to every caller;
(c) from a fresh cell whose factory succeeds on its first invocation, any
`n ≥ 1` calls leave the invocation count at exactly 1 and return the same
value to all `n` callers. -/
theorem state_idempotent_after_success {S E : Type} (factory : Nat → Except E S) :
    (∀ (s : CellSys S) (v : S), s.cell = some v →
        getOrTryInit factory s = (s, .ok v))
    ∧ (∀ (n : Nat) (s : CellSys S) (v : S), s.cell = some v →
        (callsN factory n s).1 = s
        ∧ (callsN factory n s).2 = List.replicate n (.ok v))
    ∧ (∀ (v : S) (n : Nat), factory 0 = .ok v → 1 ≤ n →
        (callsN factory n (CellSys.fresh S)).1 = { cell := some v, count := 1 }
        ∧ (callsN factory n (CellSys.fresh S)).2 = List.replicate n (.ok v)) := by
  have hrep : ∀ (n : Nat) (s : CellSys S) (v : S), s.cell = some v →
      (callsN factory n s).1 = s
      ∧ (callsN factory n s).2 = List.replicate n (.ok v) := by
    intro n
    induction n with
    | zero => intro s v _; exact ⟨rfl, rfl⟩
    | succ n ih =>
        intro s v h
        have hcall := getOrTryInit_cached factory s v h
        have := ih s v h
        simp [callsN, hcall, this.1, this.2, List.replicate_succ]
  refine ⟨fun s v h => getOrTryInit_cached factory s v h, hrep, ?_⟩
  intro v n hfac hn
  obtain ⟨m, rfl⟩ := Nat.exists_eq_add_of_le hn
  have hfirst : getOrTryInit factory (CellSys.fresh S)
      = ({ cell := some v, count := 1 }, .ok v) := by
    simp [getOrTryInit, CellSys.fresh, hfac]
  have hrest := hrep m { cell := some v, count := 1 } v rfl
  rw [Nat.add_comm 1 m]
  constructor
  · simp [callsN, hfirst, hrest.1]
  · simp [callsN, hfirst, hrest.2, List.replicate_succ]

/-- Witness for C2: a factory that always succeeds with 42, called 3 times
from a fresh cell: the invocation count is 1 and all three calls return 42. -/
theorem state_idempotent_after_success_witness :
    (callsN (fun _ => (Except.ok 42 : Except String Nat)) 3 (CellSys.fresh Nat)).1
        = { cell := some 42, count := 1 }
    ∧ (callsN (fun _ => (Except.ok 42 : Except String Nat)) 3 (CellSys.fresh Nat)).2
        = List.replicate 3 (Except.ok 42) :=
  (state_idempotent_after_success fun _ => (Except.ok 42 : Except String Nat)).2.2
    42 3 rfl (by decide)

/-- C3: a failed initialization attempt caches nothing, propagates the
factory's error verbatim, and leaves the cell retryable, and concurrent
callers of the attempt await its outcome instead of invoking the factory:
(a) a call on an empty cell whose factory invocation fails returns exactly
that error and leaves the cell empty; (b) a call on an empty cell whose
factory invocation succeeds caches and returns the value — the next attempt
may succeed; (c) a caller that arrives while an attempt is in flight joins it
as a waiter without invoking the factory (the invocation count is unchanged);
(d) when the attempt finishes with the factory's error, the cell is left
empty, no factory invocation is added, and that error is delivered verbatim
to the leader and every waiter of the attempt. -/
theorem failed_attempt_is_retryable {S E : Type} (factory : Nat → Except E S) :
    (∀ (s : CellSys S) (e : E), s.cell = none → factory s.count = .error e →
        getOrTryInit factory s = ({ cell := none, count := s.count + 1 }, .error e))
    ∧ (∀ (s : CellSys S) (v : S), s.cell = none → factory s.count = .ok v →
        getOrTryInit factory s = ({ cell := some v, count := s.count + 1 }, .ok v))
    ∧ (∀ (s : LSys S E) (l k c : Nat) (ws : List Nat),
        s.lstate = .initializing l k ws →
        (lstep factory s (.arrive c)).count = s.count
        ∧ (lstep factory s (.arrive c)).lstate = .initializing l k (ws ++ [c]))
    ∧ (∀ (s : LSys S E) (l k : Nat) (ws : List Nat) (e : E),
        s.lstate = .initializing l k ws → factory k = .error e →
        (lstep factory s .finish).lstate = .empty
        ∧ (lstep factory s .finish).count = s.count
        ∧ (lstep factory s .finish).outcomes
            = s.outcomes ++ (l :: ws).map fun c => (c, .error e)) := by
  refine ⟨?_, ?_, ?_, ?_⟩
  · intro s e h hfac; simp [getOrTryInit, h, hfac]
  · intro s v h hfac; simp [getOrTryInit, h, hfac]
  · intro s l k c ws h; constructor <;> simp [lstep, h]
  · intro s l k ws e h hfac; refine ⟨?_, ?_, ?_⟩ <;> simp [lstep, h, hfac]

/-- Witness for C3, with a factory that fails on its first invocation with
"boom" and succeeds with 7 afterwards: the first call on a fresh cell returns
the error and leaves the cell empty; the next call succeeds and caches 7; a
waiter joining an in-flight attempt leaves the invocation count untouched;
and a failing attempt with leader 0 and waiters [1, 2] delivers "boom" to all
three and empties the cell. -/
theorem failed_attempt_is_retryable_witness :
    (getOrTryInit (fun k => if k = 0 then (Except.error "boom" : Except String Nat)
          else Except.ok 7) (CellSys.fresh Nat)
        = ({ cell := none, count := 1 }, Except.error "boom"))
    ∧ (getOrTryInit (fun k => if k = 0 then (Except.error "boom" : Except String Nat)
          else Except.ok 7) { cell := none, count := 1 }
        = ({ cell := some 7, count := 2 }, Except.ok 7))
    ∧ ((lstep (fun k => if k = 0 then (Except.error "boom" : Except String Nat)
          else Except.ok 7)
          { lstate := .initializing 0 0 [1], count := 1, outcomes := [] }
          (.arrive 2)).count = 1)
    ∧ ((lstep (fun k => if k = 0 then (Except.error "boom" : Except String Nat)
          else Except.ok 7)
          { lstate := .initializing 0 0 [1, 2], count := 1, outcomes := [] }
          .finish).outcomes
        = [(0, Except.error "boom"), (1, Except.error "boom"), (2, Except.error "boom")]) := by
  refine ⟨?_, ?_, ?_, ?_⟩
  · exact (failed_attempt_is_retryable _).1 (CellSys.fresh Nat) "boom" rfl rfl
  · exact (failed_attempt_is_retryable _).2.1 { cell := none, count := 1 } 7 rfl rfl
  · exact ((failed_attempt_is_retryable _).2.2.1
      { lstate := .initializing 0 0 [1], count := 1, outcomes := [] } 0 0 2 [1] rfl).1
  · exact (((failed_attempt_is_retryable _).2.2.2
      { lstate := .initializing 0 0 [1, 2], count := 1, outcomes := [] }
      0 0 [1, 2] "boom" rfl rfl).2.2).trans rfl

/-- The `ServerState` record of crates/sdk/src/state.rs: the configuration
value, a reference to the `Arc`-shared application state (the once-cell plus
factory), modelled as an index into a heap of cells, and the metrics registry
handle. -/
structure ServerState (Config M : Type) where
  configuration : Config
  stateRef : Nat
  metrics : M
deriving DecidableEq

/-- Following `impl Clone for ServerState`: the configuration and metrics handle are
cloned by value; the application state is shared, because cloning an `Arc`
clones the reference, not the referent. -/
def cloneServerState {Config M : Type} (s : ServerState Config M) :
    ServerState Config M :=
  { configuration := s.configuration, stateRef := s.stateRef, metrics := s.metrics }

/-- The method `ServerState::state` acting on the heap of `Arc`-allocated cells: it runs
`get_or_try_init` on the cell this server state points to. -/
def stateCall {S E Config M : Type} (factory : Nat → Except E S)
    (srv : ServerState Config M) (h : Nat → CellSys S) :
    (Nat → CellSys S) × Except E S :=
  (Function.update h srv.stateRef (getOrTryInit factory (h srv.stateRef)).1,
    (getOrTryInit factory (h srv.stateRef)).2)

/-- C10: a clone of a `ServerState` shares the underlying initialization cell
(the same heap reference) while carrying its own copy of the configuration
value; consequently, after a successful `state()` call through one clone, a
`state()` call through the other clone observes the already-initialized cell:
it returns the same value and leaves the heap — in particular the factory
invocation count — completely unchanged. -/
theorem clone_shares_initialization_cell {S E Config M : Type}
    (factory : Nat → Except E S) :
    (∀ srv : ServerState Config M,
        (cloneServerState srv).stateRef = srv.stateRef
        ∧ (cloneServerState srv).configuration = srv.configuration)
    ∧ (∀ (srv : ServerState Config M) (h : Nat → CellSys S) (v : S),
        (stateCall factory srv h).2 = .ok v →
        stateCall factory (cloneServerState srv) (stateCall factory srv h).1
          = ((stateCall factory srv h).1, .ok v)) := by
  constructor
  · intro srv; exact ⟨rfl, rfl⟩
  · intro srv h v hok
    have hcell : ((stateCall factory srv h).1 srv.stateRef).cell = some v := by
      simp only [stateCall, Function.update_same]
      exact getOrTryInit_ok_cell factory (h srv.stateRef) v hok
    have hcached := getOrTryInit_cached factory
      ((stateCall factory srv h).1 srv.stateRef) v hcell
    simp only [stateCall, cloneServerState] at hcached ⊢
    rw [hcached]
    exact Prod.ext (Function.update_eq_self _ _) rfl

/-- Witness for C10: configuration "cfg", cell reference 0, a factory that
returns 7; after the original's successful call, the clone's call returns 7
and leaves the heap unchanged. -/
theorem clone_shares_initialization_cell_witness :
    stateCall (fun _ => (Except.ok 7 : Except String Nat))
        (cloneServerState { configuration := "cfg", stateRef := 0, metrics := () })
        (stateCall (fun _ => (Except.ok 7 : Except String Nat))
          { configuration := "cfg", stateRef := 0, metrics := () }
          fun _ => CellSys.fresh Nat).1
      = ((stateCall (fun _ => (Except.ok 7 : Except String Nat))
            { configuration := "cfg", stateRef := 0, metrics := () }
            fun _ => CellSys.fresh Nat).1,
          Except.ok 7) :=
  (clone_shares_initialization_cell (fun _ => (Except.ok 7 : Except String Nat))).2
    { configuration := "cfg", stateRef := 0, metrics := () }
    (fun _ => CellSys.fresh Nat) 7 rfl

end Lazy
